import Mathlib

/-!
Shallow embedding of the Mach-O loader core from `cle/backends/macho/__init__.py`
(class `MachO`), together with proofs about the properties claimed of it.

Conventions of the embedding:
* Python byte strings become `List Nat` (each entry is one byte value);
  segment/section/symbol names become `String` after NUL stripping.
* Machine integers are `Nat` (Python ints are unbounded, and all the decoded
  fields here are unsigned in the paths the claims exercise).
* Fallible code returns `Option` or `Except CLEError`; a Python exception that
  aborts the parse is modelled by the error value.
* File reads (`self._read(f, off, n)`) become `(file.drop off).take n` on the
  byte list — like Python's `file.read`, a read past the end is short, not an
  error.
-/

namespace CleMachO

/-- The three error kinds of `cle.errors` used by the Mach-O backend:
`CLEInvalidBinaryError`, `CLECompatibilityError`, `CLEOperationError`. -/
inductive CLEError
  | invalidBinary
  | compat
  | operation
deriving DecidableEq

/-- `self._read(file, offset, size)`: seek to `offset` and read up to `size`
bytes (short at end of file, like Python's `file.read`). -/
def machoRead (file : List Nat) (off n : Nat) : List Nat :=
  (file.drop off).take n

/-- Little-endian value of a byte list (first byte is least significant). -/
def bytesToNatLE : List Nat → Nat
  | [] => 0
  | b :: rest => b % 256 + 256 * bytesToNatLE rest

/-- `struct.unpack("I", ...)` at `off` (the claims under study are all
byteorder independent; the little-endian case is modelled). -/
def u32At (file : List Nat) (off : Nat) : Nat :=
  bytesToNatLE (machoRead file off 4)

/-- `struct.unpack("H", ...)` at `off`. -/
def u16At (file : List Nat) (off : Nat) : Nat :=
  bytesToNatLE (machoRead file off 2)

/-- Python's `range(start, stop, step)` for a positive `step`. -/
def pyRange (start stop step : Nat) : List Nat :=
  List.range' start ((stop - start + step - 1) / step) step

/-- Python truthiness of an optional integer: `None` and `0` are falsy.
This is what `if self.entryoff:` tests in `_resolve_entry`. -/
def pyTruthy : Option Nat → Bool
  | none => false
  | some n => n != 0

/-- A Mach-O section as built by `_load_segment` from a section record.
`section.py` is not under src/; the fields are the arguments of the
`MachOSection(...)` constructor call in `_load_segment`, in order. -/
structure MachOSection where
  offset : Nat
  vaddr : Nat
  vsize : Nat
  memsizeField : Nat
  segname : String
  sectname : String
  salign : Nat
  reloff : Nat
  nreloc : Nat
  flags : Nat
  r1 : Nat
  r2 : Nat
deriving DecidableEq

/-- A Mach-O segment as built by `_load_segment`. `segment.py` is not under
src/; the fields are the arguments of the `MachOSegment(...)` constructor call
in `_load_segment`, in order. -/
structure MachOSegment where
  offset : Nat
  vaddr : Nat
  filesize : Nat
  memsize : Nat
  segname : String
  nsect : Nat
  sections : List MachOSection
  flags : Nat
  initprot : Nat
  maxprot : Nat
deriving DecidableEq

/-! ## C9: segment lookup by name -/

/-- `MachO.find_segment_by_name`: first segment whose `segname` matches,
else `None`. -/
def find_segment_by_name (segs : List MachOSegment) (name : String) :
    Option MachOSegment :=
  match segs with
  | [] => none
  | s :: rest => if s.segname = name then some s else find_segment_by_name rest name

/-- `MachO.get_segment_by_name`: a second, textually separate linear search in
the source, with the same behaviour. -/
def get_segment_by_name (segs : List MachOSegment) (name : String) :
    Option MachOSegment :=
  match segs with
  | [] => none
  | s :: rest => if s.segname = name then some s else get_segment_by_name rest name

/-- `MachO.__getitem__`: syntactic sugar for `get_segment_by_name`. -/
def machoGetItem (segs : List MachOSegment) (name : String) :
    Option MachOSegment :=
  get_segment_by_name segs name

/-- The specification's description of the lookup (for the refinement claim
C9): the first segment in file order whose `segname` equals `name`, or
`None` when no segment matches. -/
def firstSegmentNamed (segs : List MachOSegment) (name : String) :
    Option MachOSegment :=
  segs.find? (fun s => s.segname = name)

/-- C9: for every name, `image[name]` returns exactly the same result as
`find_segment_by_name(name)`, namely the first segment in file order whose
`segname` equals `name`, or `None` when no segment matches. -/
theorem getitem_eq_find_segment_by_name (segs : List MachOSegment) (name : String) :
    machoGetItem segs name = find_segment_by_name segs name
      ∧ find_segment_by_name segs name = firstSegmentNamed segs name := by
  constructor
  · induction segs with
    | nil => rfl
    | cons s rest ih =>
      simp only [machoGetItem, get_segment_by_name, find_segment_by_name] at *
      by_cases h : s.segname = name
      · simp [h]
      · simp [h, ih]
  · induction segs with
    | nil => rfl
    | cons s rest ih =>
      simp only [find_segment_by_name, firstSegmentNamed, List.find?] at *
      by_cases h : s.segname = name
      · simp [h]
      · simp [h, ih]

/-! ## C10: `get_string` on the string table -/

/-- The scanning loop of `MachO.get_string`: starting from index `e`, find the
first NUL and return `strtab[start:e]`, or `strtab[start:]` if the end of the
table is reached first. -/
def get_string_loop (strtab : List Nat) (start e : Nat) : List Nat :=
  if h : e < strtab.length then
    if strtab.get ⟨e, h⟩ = 0 then (strtab.drop start).take (e - start)
    else get_string_loop strtab start (e + 1)
  else strtab.drop start
termination_by strtab.length - e

/-- `MachO.get_string`: raises `ValueError` (here `none`) when `start` exceeds
the table length, else scans for a NUL terminator. -/
def get_string (strtab : List Nat) (start : Nat) : Option (List Nat) :=
  if start > strtab.length then none
  else some (get_string_loop strtab start start)

lemma takeWhile_eq_take_of (p : Nat → Bool) :
    ∀ (l : List Nat) (n : Nat), n ≤ l.length →
      (∀ i, i < n → p (l.getD i 0) = true) →
      (∀ _ : n < l.length, p (l.getD n 0) = false) →
      l.takeWhile p = l.take n := by
  intro l
  induction l with
  | nil =>
    intro n hn _ _
    simp at hn
    simp [hn]
  | cons a t ih =>
    intro n hn hpre hstop
    cases n with
    | zero =>
      have ha : p a = false := hstop (by simp)
      simp [List.takeWhile, ha]
    | succ m =>
      have ha : p a = true := hpre 0 (Nat.succ_pos m)
      simp only [List.takeWhile, ha, List.take]
      congr 1
      refine ih m (by simpa using hn) ?_ ?_
      · intro i hi
        have := hpre (i + 1) (Nat.succ_lt_succ hi)
        simpa using this
      · intro hm
        have := hstop (by simpa using Nat.succ_lt_succ hm)
        simpa using this

lemma getD_drop_add (l : List Nat) (start i : Nat) (h : start + i < l.length) :
    (l.drop start).getD i 0 = l.getD (start + i) 0 := by
  rw [List.getD_eq_getElem _ _ (by simp [List.length_drop]; omega),
    List.getD_eq_getElem _ _ h]
  simp [List.getElem_drop]

lemma get_string_loop_spec (strtab : List Nat) (start : Nat) :
    ∀ (fuel e : Nat), strtab.length - e ≤ fuel → start ≤ e →
      (∀ i, start ≤ i → i < e → strtab.getD i 0 ≠ 0) →
      get_string_loop strtab start e
        = (strtab.drop start).takeWhile (fun b => b != 0) := by
  intro fuel
  induction fuel with
  | zero =>
    intro e hfuel hse hpre
    have hlen : strtab.length ≤ e := by omega
    rw [get_string_loop]
    simp only [dif_neg (by omega : ¬ e < strtab.length)]
    symm
    have : (strtab.drop start).takeWhile (fun b => b != 0)
        = (strtab.drop start).take (strtab.drop start).length := by
      refine takeWhile_eq_take_of _ _ _ (le_refl _) ?_ ?_
      · intro i hi
        have hi2 : start + i < strtab.length := by
          simp [List.length_drop] at hi; omega
        rw [getD_drop_add _ _ _ hi2]
        have := hpre (start + i) (Nat.le_add_right _ _) (by omega)
        simpa using this
      · intro h
        exact absurd h (lt_irrefl _)
    rw [this, List.take_length]
  | succ fuel ih =>
    intro e hfuel hse hpre
    rw [get_string_loop]
    by_cases hlt : e < strtab.length
    · simp only [dif_pos hlt]
      by_cases hz : strtab.get ⟨e, hlt⟩ = 0
      · simp only [if_pos hz]
        symm
        have hlen : e - start ≤ (strtab.drop start).length := by
          simp [List.length_drop]; omega
        refine takeWhile_eq_take_of _ _ _ hlen ?_ ?_
        · intro i hi
          rw [getD_drop_add _ _ _ (by omega)]
          have := hpre (start + i) (Nat.le_add_right _ _) (by omega)
          simpa using this
        · intro hlt2
          have hdrop : e - start < (strtab.drop start).length := hlt2
          rw [getD_drop_add _ _ _ (by simp [List.length_drop] at hdrop; omega)]
          have he : start + (e - start) = e := by omega
          rw [he, List.getD_eq_getElem _ _ hlt]
          have : strtab[e] = 0 := by simpa [List.get_eq_getElem] using hz
          simp [this]
      · simp only [if_neg hz]
        refine ih (e + 1) (by omega) (by omega) ?_
        intro i hsi hie
        rcases Nat.lt_or_ge i e with hc | hc
        · exact hpre i hsi hc
        · have hi_eq : i = e := by omega
          subst hi_eq
          rw [List.getD_eq_getElem _ _ hlt]
          intro hcon
          exact hz (by simpa [List.get_eq_getElem] using hcon)
    · simp only [dif_neg hlt]
      symm
      have : (strtab.drop start).takeWhile (fun b => b != 0)
          = (strtab.drop start).take (strtab.drop start).length := by
        refine takeWhile_eq_take_of _ _ _ (le_refl _) ?_ ?_
        · intro i hi
          have hi2 : start + i < strtab.length := by
            simp [List.length_drop] at hi; omega
          rw [getD_drop_add _ _ _ hi2]
          have := hpre (start + i) (Nat.le_add_right _ _) (by omega)
          simpa using this
        · intro h
          exact absurd h (lt_irrefl _)
      rw [this, List.take_length]

/-- C10: `get_string` fails exactly when the start offset is strictly greater
than the string-table length; otherwise it returns the bytes from the offset
up to (excluding) the first NUL, which is all remaining bytes when no NUL
follows (a missing terminator is not an error). -/
theorem get_string_spec (strtab : List Nat) (start : Nat) :
    get_string strtab start
      = if start > strtab.length then none
        else some ((strtab.drop start).takeWhile (fun b => b != 0)) := by
  unfold get_string
  by_cases h : start > strtab.length
  · simp [h]
  · simp only [if_neg h]
    rw [get_string_loop_spec strtab start (strtab.length - start) start (le_refl _)
      (le_refl _) (by omega)]

/-! ## C4: entry-point resolution (`_resolve_entry`) -/

/-- `MachO._resolve_entry`. The source tests `if self.entryoff:` and
`elif self.unixthread_pc:` — Python truthiness, so a recorded value of `0`
takes the same branch as `None`. A missing `__TEXT` segment makes
`self.find_segment_by_name("__TEXT").vaddr` raise (`None` has no `vaddr`);
that abort is modelled by `none`. -/
def resolve_entry (segs : List MachOSegment) (entryoff unixthread_pc : Option Nat) :
    Option Nat :=
  if pyTruthy entryoff then
    (find_segment_by_name segs "__TEXT").map (fun s => s.vaddr + entryoff.getD 0)
  else if pyTruthy unixthread_pc then some (unixthread_pc.getD 0)
  else some 0

/-- A concrete `__TEXT` segment at vaddr 0x100000000, used as the failing
input for C4. -/
def textSegAt4G : MachOSegment :=
  { offset := 0, vaddr := 0x100000000, filesize := 0x1000, memsize := 0x1000,
    segname := "__TEXT", nsect := 0, sections := [], flags := 0,
    initprot := 5, maxprot := 5 }

/-- C4 (code bug): with `entryoff` recorded as `0` by LC_MAIN and the `__TEXT`
segment at 0x100000000, the code returns entry 0 (the warning path), while the
claim requires `__TEXT` vaddr + entryoff = 0x100000000. The `if self.entryoff:`
truthiness test treats a recorded 0 as unset, although `_load_lc_main` itself
treats `entryoff = 0` as set when rejecting duplicate entry commands. -/
theorem resolve_entry_zero_entryoff_bug :
    resolve_entry [textSegAt4G] (some 0) none = some 0
      ∧ (find_segment_by_name [textSegAt4G] "__TEXT").map
          (fun s => s.vaddr + (some 0 : Option Nat).getD 0) = some 0x100000000
      ∧ (some 0x100000000 : Option Nat) ≠ some 0 := by
  refine ⟨rfl, rfl, by decide⟩

/-! ## C6: LC_DATA_IN_CODE (`_load_lc_data_in_code`) -/

/-- `MachO._load_lc_data_in_code`: after decoding `(cmd, cmdsize, dataoff,
datasize)`, the source iterates `for i in range(dataoff, datasize, 8)` and at
each `i` unpacks `"IHH"` (u32 offset, u16 length, u16 kind) from 8 file bytes,
appending to `lc_data_in_code`. -/
def load_lc_data_in_code (file : List Nat) (dataoff datasize : Nat) :
    List (Nat × Nat × Nat) :=
  (pyRange dataoff datasize 8).map
    (fun i => (u32At file i, u16At file (i + 4), u16At file (i + 6)))

/-- C6 (code bug): a command with `dataoff = 16`, `datasize = 8` holds exactly
one 8-byte record, so the claim (and the spec, which flags the source's
`range(dataoff, datasize, 8)` as a bug) demands `datasize / 8 = 1` record at
file offset 16; the code's loop `range(16, 8, 8)` is empty and appends 0
records. -/
theorem load_lc_data_in_code_range_bug :
    (load_lc_data_in_code (List.replicate 24 1) 16 8).length = 0
      ∧ (8 : Nat) / 8 = 1 := by
  constructor
  · rfl
  · rfl

/-! ## C7: MH_TWOLEVEL check (`_parse_mach_header`) -/

/-- The seven u32 fields unpacked from the mach header by
`_parse_mach_header` (the magic, already consumed for byteorder detection,
is ignored). -/
structure MachHeader where
  cputype : Nat
  cpusubtype : Nat
  filetype : Nat
  ncmds : Nat
  sizeofcmds : Nat
  flags : Nat
deriving DecidableEq

/-- `MachO._parse_mach_header`: sets `pie` from flag bit 0x200000 and raises
`CLEInvalidBinaryError` ("Cannot handle non MH_TWOLEVEL binaries") when flag
bit 0x80 is clear. -/
def parse_mach_header (h : MachHeader) : Except CLEError (MachHeader × Bool) :=
  let pie := h.flags &&& 0x200000 != 0
  if h.flags &&& 0x80 = 0 then Except.error CLEError.invalidBinary
  else Except.ok (h, pie)

/-- C7 counterexample: a header whose flags lack bit 0x80 (here flags =
0x200001) is rejected with `CLEInvalidBinaryError`, not with the
Compatibility kind the claim asserts. -/
theorem parse_mach_header_twolevel_error_kind :
    parse_mach_header
        { cputype := 0x0100000C, cpusubtype := 0, filetype := 2,
          ncmds := 0, sizeofcmds := 0, flags := 0x200001 }
      = Except.error CLEError.invalidBinary
      ∧ CLEError.invalidBinary ≠ CLEError.compat := by
  exact ⟨rfl, by decide⟩

/-- C7 amended: if the mach header flags lack bit 0x80 (MH_TWOLEVEL) the parse
is rejected, and the error surfaced is the invalid-binary kind; with the bit
set, `_parse_mach_header` succeeds. -/
theorem parse_mach_header_twolevel (h : MachHeader) :
    (h.flags &&& 0x80 = 0 →
        parse_mach_header h = Except.error CLEError.invalidBinary)
      ∧ (h.flags &&& 0x80 ≠ 0 →
        parse_mach_header h = Except.ok (h, h.flags &&& 0x200000 != 0)) := by
  constructor
  · intro hz
    simp [parse_mach_header, hz]
  · intro hnz
    simp [parse_mach_header, hnz]

/-- A header without the MH_TWOLEVEL bit. -/
def hdrFlat : MachHeader :=
  { cputype := 7, cpusubtype := 0, filetype := 2,
    ncmds := 0, sizeofcmds := 0, flags := 0 }

/-- A header with only the MH_TWOLEVEL bit. -/
def hdrTwolevel : MachHeader :=
  { cputype := 7, cpusubtype := 0, filetype := 2,
    ncmds := 0, sizeofcmds := 0, flags := 0x80 }

/-- Witness for C7: the amended theorem applied at the two concrete headers. -/
theorem parse_mach_header_twolevel_witness :
    parse_mach_header hdrFlat = Except.error CLEError.invalidBinary
      ∧ parse_mach_header hdrTwolevel = Except.ok (hdrTwolevel, false) :=
  ⟨(parse_mach_header_twolevel hdrFlat).1 (by decide),
   (parse_mach_header_twolevel hdrTwolevel).2 (by decide)⟩

/-! ## C2: segment memory backer (`_load_segment`) -/

/-- The memory-backer part of `MachO._load_segment`: for `__PAGEZERO` no
backer is registered; otherwise `filesize` bytes are read from the file at
`fileoff` (`seg.offset`), right-padded with zeroes when `filesize < memsize`
(`seg.memsize = vmsize`), and registered at `vmaddr`. Returns the
`(vaddr, bytes)` passed to `memory.add_backer`, or `none` when no backer is
added. -/
def load_segment_backer (file : List Nat) (segname : String)
    (fileoff filesize vmsize vmaddr : Nat) : Option (Nat × List Nat) :=
  if segname = "__PAGEZERO" then none
  else
    let blob := machoRead file fileoff filesize
    let blob := if filesize < vmsize then blob ++ List.replicate (vmsize - filesize) 0 else blob
    some (vmaddr, blob)

/-- C2 counterexample: the claim as stated fails when `filesize > vmsize`
(nothing in `_load_segment` truncates): for a `__DATA` segment with
`filesize = 2`, `vmsize = 1` the registered backer has length 2, not
`vmsize`. -/
theorem load_segment_backer_overlong :
    (load_segment_backer [5, 6, 7] "__DATA" 0 2 1 100).map
        (fun p => p.2.length) = some 2
      ∧ (2 : Nat) ≠ 1 := by
  exact ⟨rfl, by decide⟩

/-- C2 amended: for `__PAGEZERO` no backer is registered; for every other
segment with `filesize ≤ vmsize` whose file extent lies inside the file, the
backer is registered at `vmaddr`, has length exactly `vmsize`, its first
`filesize` bytes are the file bytes at `fileoff`, and its remaining bytes are
zero. -/
theorem load_segment_backer_spec (file : List Nat) (segname : String)
    (fileoff filesize vmsize vmaddr : Nat)
    (hsz : filesize ≤ vmsize) (hfile : fileoff + filesize ≤ file.length) :
    (segname = "__PAGEZERO" →
        load_segment_backer file segname fileoff filesize vmsize vmaddr = none)
      ∧ (segname ≠ "__PAGEZERO" →
        ∃ blob,
          load_segment_backer file segname fileoff filesize vmsize vmaddr
              = some (vmaddr, blob)
            ∧ blob.length = vmsize
            ∧ blob.take filesize = machoRead file fileoff filesize
            ∧ ∀ b ∈ blob.drop filesize, b = 0) := by
  have hslice : (machoRead file fileoff filesize).length = filesize := by
    simp [machoRead, List.length_take, List.length_drop]
    omega
  constructor
  · intro hpz
    simp [load_segment_backer, hpz]
  · intro hnpz
    rcases Nat.lt_or_ge filesize vmsize with hlt | hge
    · refine ⟨machoRead file fileoff filesize ++ List.replicate (vmsize - filesize) 0,
        ?_, ?_, ?_, ?_⟩
      · simp [load_segment_backer, hnpz, hlt]
      · simp [List.length_append, hslice, List.length_replicate]
        omega
      · have h := List.take_left (machoRead file fileoff filesize)
          (List.replicate (vmsize - filesize) 0)
        rw [hslice] at h
        exact h
      · intro b hb
        have h := List.drop_left (machoRead file fileoff filesize)
          (List.replicate (vmsize - filesize) 0)
        rw [hslice] at h
        rw [h] at hb
        exact List.eq_of_mem_replicate hb
    · have heq : filesize = vmsize := le_antisymm hsz hge
      refine ⟨machoRead file fileoff filesize, ?_, ?_, ?_, ?_⟩
      · simp [load_segment_backer, hnpz, Nat.not_lt.mpr hge]
      · rw [hslice, heq]
      · rw [List.take_of_length_le (by rw [hslice])]
      · intro b hb
        rw [List.drop_of_length_le (by rw [hslice])] at hb
        simp at hb

/-- Witness for C2's amended theorem: file `[1,2,3,4]`, segment `__TEXT` with
`fileoff = 1`, `filesize = 2`, `vmsize = 3`, `vmaddr = 50`. -/
theorem load_segment_backer_spec_witness :
    ∃ blob,
      load_segment_backer [1, 2, 3, 4] "__TEXT" 1 2 3 50 = some (50, blob)
        ∧ blob.length = 3
        ∧ blob.take 2 = machoRead [1, 2, 3, 4] 1 2
        ∧ ∀ b ∈ blob.drop 2, b = 0 :=
  (load_segment_backer_spec [1, 2, 3, 4] "__TEXT" 1 2 3 50
    (by decide) (by decide)).2 (by decide)

/-! ## C3: load-command loop bounds (`MachO.__init__`) -/

/-- The load-command loop of `MachO.__init__`:
`while count < ncmds and (offset - lc_offset) < sizeofcmds` — each iteration
increments `count` and advances `offset` by the command's `size` field, read
from the file at the current offset (`sizeAt` abstracts that u32 read; the
dispatched handlers do not change `count` or `offset`). Returns the final
`(count, offset)`. -/
def lcLoop (ncmds sizeofcmds lcOffset : Nat) (sizeAt : Nat → Nat)
    (count offset : Nat) : Nat × Nat :=
  if _h : count < ncmds ∧ offset - lcOffset < sizeofcmds then
    lcLoop ncmds sizeofcmds lcOffset sizeAt (count + 1) (offset + sizeAt offset)
  else (count, offset)
termination_by ncmds - count
decreasing_by exact Nat.sub_lt_sub_left _h.1 (Nat.lt_succ_self count)

/-- The loop followed by the malformed-binary assertion of `MachO.__init__`:
after the loop, raise `CLEInvalidBinaryError` if `count < ncmds` or
`(offset - lc_offset) < sizeofcmds`. -/
def parseLoadCommands (ncmds sizeofcmds lcOffset : Nat) (sizeAt : Nat → Nat) :
    Except CLEError (Nat × Nat) :=
  let r := lcLoop ncmds sizeofcmds lcOffset sizeAt 0 lcOffset
  if r.1 < ncmds ∨ r.2 - lcOffset < sizeofcmds then Except.error CLEError.invalidBinary
  else Except.ok r

lemma lcLoop_guard_false (ncmds sizeofcmds lcOffset : Nat) (sizeAt : Nat → Nat) :
    ∀ (fuel count offset : Nat), ncmds - count ≤ fuel →
      ¬ ((lcLoop ncmds sizeofcmds lcOffset sizeAt count offset).1 < ncmds
        ∧ (lcLoop ncmds sizeofcmds lcOffset sizeAt count offset).2 - lcOffset
            < sizeofcmds) := by
  intro fuel
  induction fuel with
  | zero =>
    intro count offset hf
    rw [lcLoop]
    have hng : ¬ (count < ncmds ∧ offset - lcOffset < sizeofcmds) := by
      intro hc
      omega
    simp only [dif_neg hng]
    exact hng
  | succ fuel ih =>
    intro count offset hf
    rw [lcLoop]
    by_cases hg : count < ncmds ∧ offset - lcOffset < sizeofcmds
    · simp only [dif_pos hg]
      exact ih (count + 1) (offset + sizeAt offset) (by omega)
    · simp only [dif_neg hg]
      exact hg

/-- C3: the load-command loop keeps iterating exactly while `count < ncmds`
and the accumulated span is below `sizeofcmds` (first conjunct), so it stops
exactly when the count reaches `ncmds` or the span reaches `sizeofcmds`
(second conjunct), and the parse raises the invalid-binary error if and only
if the final count is below `ncmds` or the final span below `sizeofcmds`
(third conjunct). -/
theorem load_command_loop_bounds (ncmds sizeofcmds lcOffset : Nat)
    (sizeAt : Nat → Nat) :
    (∀ count offset, count < ncmds → offset - lcOffset < sizeofcmds →
        lcLoop ncmds sizeofcmds lcOffset sizeAt count offset
          = lcLoop ncmds sizeofcmds lcOffset sizeAt (count + 1)
              (offset + sizeAt offset))
      ∧ ¬ ((lcLoop ncmds sizeofcmds lcOffset sizeAt 0 lcOffset).1 < ncmds
          ∧ (lcLoop ncmds sizeofcmds lcOffset sizeAt 0 lcOffset).2 - lcOffset
              < sizeofcmds)
      ∧ (parseLoadCommands ncmds sizeofcmds lcOffset sizeAt
            = Except.error CLEError.invalidBinary
          ↔ ((lcLoop ncmds sizeofcmds lcOffset sizeAt 0 lcOffset).1 < ncmds
            ∨ (lcLoop ncmds sizeofcmds lcOffset sizeAt 0 lcOffset).2 - lcOffset
                < sizeofcmds)) := by
  refine ⟨?_, ?_, ?_⟩
  · intro count offset hc ho
    conv_lhs => rw [lcLoop]
    simp only [dif_pos (And.intro hc ho)]
  · exact lcLoop_guard_false ncmds sizeofcmds lcOffset sizeAt ncmds 0 lcOffset (by omega)
  · unfold parseLoadCommands
    by_cases hb : (lcLoop ncmds sizeofcmds lcOffset sizeAt 0 lcOffset).1 < ncmds
        ∨ (lcLoop ncmds sizeofcmds lcOffset sizeAt 0 lcOffset).2 - lcOffset < sizeofcmds
    · simp [hb]
    · simp [hb]

/-- Witness for C3: one load command of size 8, `ncmds = 1`,
`sizeofcmds = 8`, load-command region at offset 32 — the loop takes exactly
one step and the parse succeeds. -/
theorem load_command_loop_bounds_witness :
    lcLoop 1 8 32 (fun _ => 8) 0 32 = lcLoop 1 8 32 (fun _ => 8) 1 40
      ∧ ¬ (parseLoadCommands 1 8 32 (fun _ => 8)
            = Except.error CLEError.invalidBinary) := by
  constructor
  · exact (load_command_loop_bounds 1 8 32 (fun _ => 8)).1 0 32 (by decide) (by decide)
  · intro hc
    have h := ((load_command_loop_bounds 1 8 32 (fun _ => 8)).2.2).mp hc
    have h1 : lcLoop 1 8 32 (fun _ => 8) 0 32 = (1, 40) := by
      rw [lcLoop]
      norm_num
      rw [lcLoop]
      norm_num
    rw [h1] at h
    simp at h

/-! ## C5: at most one entry-point command
(`_load_lc_main` / `_load_lc_unixthread`) -/

/-- The entry-point state of the parse: `self.entryoff` and
`self.unixthread_pc`, both initially `None`. -/
structure EntryState where
  entryoff : Option Nat
  unixthread_pc : Option Nat
deriving DecidableEq

/-- Initial entry state of `MachO.__init__`. -/
def initEntryState : EntryState := { entryoff := none, unixthread_pc := none }

/-- `MachO._load_lc_main`: raises `CLEInvalidBinaryError` when either entry
field is already set, else records `entryoff` from the command. -/
def load_lc_main (st : EntryState) (eo : Nat) : Except CLEError EntryState :=
  if st.entryoff.isSome || st.unixthread_pc.isSome then
    Except.error CLEError.invalidBinary
  else Except.ok { st with entryoff := some eo }

/-- `MachO._load_lc_unixthread`: raises `CLEInvalidBinaryError` when either
entry field is already set; then, by thread-state flavor, reads the register
blob and records its last register as `unixthread_pc` (flavor 1 on 32-bit
reads 16 u32s; flavor 1 on 64-bit, or flavor 6, reads 33 u64s; `pc` stands
for the last register value read from the file), or raises
`CLECompatibilityError` for an unknown flavor. -/
def load_lc_unixthread (is64 : Bool) (st : EntryState) (flavor pc : Nat) :
    Except CLEError EntryState :=
  if st.entryoff.isSome || st.unixthread_pc.isSome then
    Except.error CLEError.invalidBinary
  else if flavor == 1 && !is64 then
    Except.ok { st with unixthread_pc := some pc }
  else if (flavor == 1 && is64) || flavor == 6 then
    Except.ok { st with unixthread_pc := some pc }
  else
    Except.error CLEError.compat

/-- The entry-point-relevant load commands of a binary, in file order. -/
inductive EntryCmd
  | lcMain (entryoff : Nat)
  | lcUnixthread (flavor pc : Nat)
deriving DecidableEq

/-- Dispatch of the entry-point commands by `MachO.__init__`'s load-command
loop (the other command kinds do not touch `entryoff`/`unixthread_pc`). -/
def processEntryCmds (is64 : Bool) : EntryState → List EntryCmd → Except CLEError EntryState
  | st, [] => Except.ok st
  | st, EntryCmd.lcMain eo :: rest =>
    match load_lc_main st eo with
    | Except.error e => Except.error e
    | Except.ok st2 => processEntryCmds is64 st2 rest
  | st, EntryCmd.lcUnixthread fl pc :: rest =>
    match load_lc_unixthread is64 st fl pc with
    | Except.error e => Except.error e
    | Except.ok st2 => processEntryCmds is64 st2 rest

lemma processEntryCmds_set_nonempty (is64 : Bool) (st : EntryState)
    (hset : st.entryoff.isSome || st.unixthread_pc.isSome)
    (c : EntryCmd) (rest : List EntryCmd) :
    processEntryCmds is64 st (c :: rest) = Except.error CLEError.invalidBinary := by
  cases c with
  | lcMain eo =>
    simp only [processEntryCmds, load_lc_main, if_pos hset]
  | lcUnixthread fl pc =>
    simp only [processEntryCmds, load_lc_unixthread, if_pos hset]

/-- C5: a single LC_MAIN is accepted, a single LC_UNIXTHREAD with a supported
thread flavor is accepted, and any command list (in any order, with any other
entry commands around) that contains both an LC_MAIN and an LC_UNIXTHREAD —
all LC_UNIXTHREADs having supported flavors — is rejected with the
invalid-binary error. -/
theorem entry_commands_exclusive (is64 : Bool) :
    (∀ eo, processEntryCmds is64 initEntryState [EntryCmd.lcMain eo]
        = Except.ok { entryoff := some eo, unixthread_pc := none })
      ∧ (∀ fl pc, (fl = 1 ∨ fl = 6) →
        processEntryCmds is64 initEntryState [EntryCmd.lcUnixthread fl pc]
          = Except.ok { entryoff := none, unixthread_pc := some pc })
      ∧ (∀ cmds : List EntryCmd,
        (∀ fl pc, EntryCmd.lcUnixthread fl pc ∈ cmds → fl = 1 ∨ fl = 6) →
        (∃ eo, EntryCmd.lcMain eo ∈ cmds) →
        (∃ fl pc, EntryCmd.lcUnixthread fl pc ∈ cmds) →
        processEntryCmds is64 initEntryState cmds
          = Except.error CLEError.invalidBinary) := by
  refine ⟨?_, ?_, ?_⟩
  · intro eo
    simp [processEntryCmds, load_lc_main, initEntryState]
  · intro fl pc hfl
    rcases hfl with h1 | h6
    · subst h1
      cases is64 <;> simp [processEntryCmds, load_lc_unixthread, initEntryState]
    · subst h6
      cases is64 <;> simp [processEntryCmds, load_lc_unixthread, initEntryState]
  · intro cmds hflavors hmain huni
    rcases hmain with ⟨eo, hmem⟩
    rcases huni with ⟨fl, pc, hmem2⟩
    cases cmds with
    | nil => cases hmem
    | cons c rest =>
      cases c with
      | lcMain eo0 =>
        have hrest : EntryCmd.lcUnixthread fl pc ∈ rest := by
          rcases List.mem_cons.mp hmem2 with h | h
          · cases h
          · exact h
        have hok : load_lc_main initEntryState eo0
            = Except.ok { entryoff := some eo0, unixthread_pc := none } := by
          simp [load_lc_main, initEntryState]
        simp only [processEntryCmds, hok]
        cases rest with
        | nil => cases hrest
        | cons c2 rest2 =>
          exact processEntryCmds_set_nonempty is64 _ (by simp) c2 rest2
      | lcUnixthread fl0 pc0 =>
        have hfl0 : fl0 = 1 ∨ fl0 = 6 :=
          hflavors fl0 pc0 (List.mem_cons_self _ _)
        have hrest : EntryCmd.lcMain eo ∈ rest := by
          rcases List.mem_cons.mp hmem with h | h
          · cases h
          · exact h
        have hok : load_lc_unixthread is64 initEntryState fl0 pc0
            = Except.ok { entryoff := none, unixthread_pc := some pc0 } := by
          rcases hfl0 with h1 | h6
          · subst h1
            cases is64 <;> simp [load_lc_unixthread, initEntryState]
          · subst h6
            cases is64 <;> simp [load_lc_unixthread, initEntryState]
        simp only [processEntryCmds, hok]
        cases rest with
        | nil => cases hrest
        | cons c2 rest2 =>
          exact processEntryCmds_set_nonempty is64 _ (by simp) c2 rest2

/-- Witness for C5: LC_MAIN with entryoff 5 alone is accepted; LC_UNIXTHREAD
(flavor 1, pc 7) alone is accepted; both together are rejected with the
invalid-binary error. -/
theorem entry_commands_exclusive_witness :
    processEntryCmds true initEntryState [EntryCmd.lcMain 5]
        = Except.ok { entryoff := some 5, unixthread_pc := none }
      ∧ processEntryCmds true initEntryState [EntryCmd.lcUnixthread 1 7]
        = Except.ok { entryoff := none, unixthread_pc := some 7 }
      ∧ processEntryCmds true initEntryState
          [EntryCmd.lcMain 5, EntryCmd.lcUnixthread 1 7]
        = Except.error CLEError.invalidBinary :=
  ⟨(entry_commands_exclusive true).1 5,
   (entry_commands_exclusive true).2.1 1 7 (Or.inl rfl),
   (entry_commands_exclusive true).2.2
     [EntryCmd.lcMain 5, EntryCmd.lcUnixthread 1 7]
     (by intro fl pc h; simp at h; omega)
     ⟨5, by simp⟩ ⟨1, 7, by simp⟩⟩

/-! ## C1: symbol resolution and external address synthesis
(`_resolve_symbols`) -/

/-- A `MachOSymbol` as consumed by `_resolve_symbols`. `symbol.py` is not
under src/; the raw fields are those passed by `_load_symtab` to the
constructor, and `size`, `addr`, `is_export`, `library_name`,
`segment_name`, `section_name` are the derived attributes the spec lists on
the Symbol entity (`addr` is `None` when created; `is_export` here stands
for both `_is_export` and `is_export`, which the source always assigns the
same value). -/
structure MachOSymbol where
  name : String
  symtab_offset : Nat
  n_type : Nat
  n_sect : Nat
  n_desc : Nat
  n_value : Nat
  size : Nat
  addr : Option Nat
  is_export : Bool
  library_name : Option String
  segment_name : Option String
  section_name : Option String
deriving DecidableEq

/-- `SYMBOL_TYPE_SECT` imported from `symbol.py` (spec: SECT = 14). -/
def SYMBOL_TYPE_SECT : Nat := 14

/-- Modelled from the spec: `symbol.py` is not under src/; `sym_type` is
derived from `n_type & 0x0e`. -/
def symType (s : MachOSymbol) : Nat := s.n_type &&& 0x0e

/-- Modelled from the spec: `symbol.py` is not under src/; a stab (debug)
symbol has `n_type & 0xE0 != 0`. -/
def isStab (s : MachOSymbol) : Bool := s.n_type &&& 0xe0 != 0

/-- Modelled from the spec: `symbol.py` is not under src/; in a TWOLEVEL
binary an undefined symbol carries its library ordinal in the high byte of
`n_desc`. -/
def libraryOrdinal (s : MachOSymbol) : Nat := (s.n_desc >>> 8) &&& 0xff

/-- Modelled from the spec: `symbol.py` is not under src/; a common symbol
has `sym_type == UNDF` with the common-type bits of `n_desc` set (the spec
leaves the exact bits open; the high-byte alignment bits are used here —
claim C1 is insensitive to this choice). -/
def isCommon (s : MachOSymbol) : Bool :=
  symType s == 0 && (s.n_desc >>> 8) &&& 0xf != 0

/-- Modelled from the spec: `symbol.py` is not under src/; an import is an
undefined symbol with a nonzero library ordinal (claim C1 is insensitive to
this choice). -/
def isImport (s : MachOSymbol) : Bool :=
  symType s == 0 && libraryOrdinal s != 0

/-- The 1-indexed section lookup table of `_resolve_symbols`:
`section_tab = [None]` extended with every segment's sections in file
order. -/
def section_tab (segs : List MachOSegment) : List (Option MachOSection) :=
  none :: ((segs.map (fun s => s.sections)).flatten.map some)

/-- The external-region base of `_resolve_symbols`:
`0xff00000000000000` on 64-bit, `0xff000000` on 32-bit. -/
def extBase (is64 : Bool) : Nat :=
  if is64 then 0xff00000000000000 else 0xff000000

/-- The per-symbol updates of `_resolve_symbols` before the synthetic address
check: set `is_export` from membership in `exports_by_name` (here the key
list `exps`); if common, `size := n_value`; if `sym_type == SECT`, copy the
names from `section_tab[n_sect]` when that entry is a section and set
`addr := n_value`; else if imported, set `library_name` from
`imported_libraries[library_ordinal]` (an out-of-range ordinal would abort
the Python parse, producing no image; `getD` totalises that case, which the
claim — about successfully parsed images — never reaches). -/
def resolveOne (tab : List (Option MachOSection)) (libs : List String)
    (exps : List String) (sym : MachOSymbol) : MachOSymbol :=
  let sym1 := { sym with is_export := exps.contains sym.name }
  let sym2 := if isCommon sym1 then { sym1 with size := sym1.n_value } else sym1
  if symType sym2 == SYMBOL_TYPE_SECT then
    match (tab.getD sym2.n_sect none) with
    | some sec =>
      { sym2 with segment_name := some sec.segname,
                  section_name := some sec.sectname,
                  addr := some sym2.n_value }
    | none => { sym2 with addr := some sym2.n_value }
  else if isImport sym2 then
    { sym2 with library_name := some (libs.getD (libraryOrdinal sym2) "") }
  else sym2

/-- The symbol loop of `_resolve_symbols`: stab symbols are skipped after the
`_is_export` assignment; any other symbol whose `addr` is still `None` after
`resolveOne` receives the cursor as address, and the cursor advances by the
symbol's `size`. Besides the updated symbols and the final cursor
(`ext_symbol_end`), a ghost trace of the synthetic `(addr, size)` assignments
in order is returned for the statements below; it does not influence the
computation. -/
def resolveSymLoop (tab : List (Option MachOSection)) (libs exps : List String) :
    List MachOSymbol → Nat → List MachOSymbol × Nat × List (Nat × Nat)
  | [], cursor => ([], cursor, [])
  | sym :: rest, cursor =>
    let sym1 := { sym with is_export := exps.contains sym.name }
    if isStab sym1 then
      let r := resolveSymLoop tab libs exps rest cursor
      (sym1 :: r.1, r.2.1, r.2.2)
    else
      let sym2 := resolveOne tab libs exps sym
      if sym2.addr = none then
        let r := resolveSymLoop tab libs exps rest (cursor + sym2.size)
        ({ sym2 with addr := some cursor } :: r.1, r.2.1, (cursor, sym2.size) :: r.2.2)
      else
        let r := resolveSymLoop tab libs exps rest cursor
        (sym2 :: r.1, r.2.1, r.2.2)

/-- `MachO._resolve_symbols` (address part): run the symbol loop from
`ext_symbol_start = extBase`. -/
def resolve_symbols (is64 : Bool) (segs : List MachOSegment)
    (libs exps : List String) (syms : List MachOSymbol) :
    List MachOSymbol × Nat × List (Nat × Nat) :=
  resolveSymLoop (section_tab segs) libs exps syms (extBase is64)

lemma isStab_set_export (sym : MachOSymbol) (b : Bool) :
    isStab { sym with is_export := b } = isStab sym := rfl

lemma resolveSymLoop_inv (tab : List (Option MachOSection)) (libs exps : List String) :
    ∀ (syms : List MachOSymbol) (c : Nat),
      c ≤ (resolveSymLoop tab libs exps syms c).2.1
      ∧ (∀ p ∈ (resolveSymLoop tab libs exps syms c).2.2,
          c ≤ p.1 ∧ p.1 + p.2 ≤ (resolveSymLoop tab libs exps syms c).2.1)
      ∧ List.Pairwise (fun p q => p.1 + p.2 ≤ q.1)
          (resolveSymLoop tab libs exps syms c).2.2
      ∧ (∀ s ∈ (resolveSymLoop tab libs exps syms c).1,
          isStab s = false → s.addr ≠ none) := by
  intro syms
  induction syms with
  | nil =>
    intro c
    refine ⟨le_refl _, ?_, ?_, ?_⟩
    · intro p hp
      simp [resolveSymLoop] at hp
    · simp [resolveSymLoop]
    · intro s hs
      simp [resolveSymLoop] at hs
  | cons sym rest ih =>
    intro c
    by_cases hstab : isStab { sym with is_export := exps.contains sym.name }
    · have h1 : (resolveSymLoop tab libs exps (sym :: rest) c).1
          = { sym with is_export := exps.contains sym.name }
              :: (resolveSymLoop tab libs exps rest c).1 := by
        simp only [resolveSymLoop, if_pos hstab]
      have h2 : (resolveSymLoop tab libs exps (sym :: rest) c).2.1
          = (resolveSymLoop tab libs exps rest c).2.1 := by
        simp only [resolveSymLoop, if_pos hstab]
      have h3 : (resolveSymLoop tab libs exps (sym :: rest) c).2.2
          = (resolveSymLoop tab libs exps rest c).2.2 := by
        simp only [resolveSymLoop, if_pos hstab]
      rcases ih c with ⟨ih1, ih2, ih3, ih4⟩
      rw [h1, h2, h3]
      refine ⟨ih1, ih2, ih3, ?_⟩
      intro s hs hns
      rcases List.mem_cons.mp hs with h | h
      · subst h
        rw [isStab_set_export] at hns
        rw [isStab_set_export] at hstab
        rw [hstab] at hns
        cases hns
      · exact ih4 s h hns
    · by_cases haddr : (resolveOne tab libs exps sym).addr = none
      · have h1 : (resolveSymLoop tab libs exps (sym :: rest) c).1
            = { resolveOne tab libs exps sym with addr := some c }
                :: (resolveSymLoop tab libs exps rest
                      (c + (resolveOne tab libs exps sym).size)).1 := by
          simp only [resolveSymLoop, if_neg hstab, if_pos haddr]
        have h2 : (resolveSymLoop tab libs exps (sym :: rest) c).2.1
            = (resolveSymLoop tab libs exps rest
                (c + (resolveOne tab libs exps sym).size)).2.1 := by
          simp only [resolveSymLoop, if_neg hstab, if_pos haddr]
        have h3 : (resolveSymLoop tab libs exps (sym :: rest) c).2.2
            = (c, (resolveOne tab libs exps sym).size)
                :: (resolveSymLoop tab libs exps rest
                      (c + (resolveOne tab libs exps sym).size)).2.2 := by
          simp only [resolveSymLoop, if_neg hstab, if_pos haddr]
        rcases ih (c + (resolveOne tab libs exps sym).size) with ⟨ih1, ih2, ih3, ih4⟩
        rw [h1, h2, h3]
        refine ⟨by omega, ?_, ?_, ?_⟩
        · intro p hp
          rcases List.mem_cons.mp hp with h | h
          · subst h
            exact ⟨le_refl _, by omega⟩
          · rcases ih2 p h with ⟨hp1, hp2⟩
            exact ⟨by omega, hp2⟩
        · refine List.pairwise_cons.mpr ⟨?_, ih3⟩
          intro q hq
          rcases ih2 q hq with ⟨hq1, _⟩
          simpa using hq1
        · intro s hs hns
          rcases List.mem_cons.mp hs with h | h
          · subst h
            simp
          · exact ih4 s h hns
      · have h1 : (resolveSymLoop tab libs exps (sym :: rest) c).1
            = resolveOne tab libs exps sym
                :: (resolveSymLoop tab libs exps rest c).1 := by
          simp only [resolveSymLoop, if_neg hstab, if_neg haddr]
        have h2 : (resolveSymLoop tab libs exps (sym :: rest) c).2.1
            = (resolveSymLoop tab libs exps rest c).2.1 := by
          simp only [resolveSymLoop, if_neg hstab, if_neg haddr]
        have h3 : (resolveSymLoop tab libs exps (sym :: rest) c).2.2
            = (resolveSymLoop tab libs exps rest c).2.2 := by
          simp only [resolveSymLoop, if_neg hstab, if_neg haddr]
        rcases ih c with ⟨ih1, ih2, ih3, ih4⟩
        rw [h1, h2, h3]
        refine ⟨ih1, ih2, ih3, ?_⟩
        intro s hs hns
        rcases List.mem_cons.mp hs with h | h
        · subst h
          exact haddr
        · exact ih4 s h hns

/-- C1: after `_resolve_symbols`, every non-stab symbol has a non-`None`
address; the synthetic addresses start at `0xff00_0000_0000_0000` (64-bit)
or `0xff00_0000` (32-bit) and, for any two symbols A and B given synthetic
addresses with A assigned before B (the ghost trace lists the assignments
in order), `addr(B) ≥ addr(A) + size(A)`; every synthetic `(addr, size)`
slot lies inside the reserved external region
`[ext_symbol_start, ext_symbol_end)` that the zero backer covers. -/
theorem resolve_symbols_external_addresses (is64 : Bool)
    (segs : List MachOSegment) (libs exps : List String)
    (syms : List MachOSymbol) :
    (extBase true = 0xff00000000000000 ∧ extBase false = 0xff000000)
      ∧ (∀ s ∈ (resolve_symbols is64 segs libs exps syms).1,
          isStab s = false → s.addr ≠ none)
      ∧ List.Pairwise (fun p q => p.1 + p.2 ≤ q.1)
          (resolve_symbols is64 segs libs exps syms).2.2
      ∧ (∀ p ∈ (resolve_symbols is64 segs libs exps syms).2.2,
          extBase is64 ≤ p.1
            ∧ p.1 + p.2 ≤ (resolve_symbols is64 segs libs exps syms).2.1) := by
  rcases resolveSymLoop_inv (section_tab segs) libs exps syms (extBase is64)
    with ⟨_, h2, h3, h4⟩
  exact ⟨⟨rfl, rfl⟩, h4, h3, h2⟩

/-- An undefined, size-2 symbol (no stab bits, no section, no ordinal). -/
def undefSymA : MachOSymbol :=
  { name := "", symtab_offset := 0, n_type := 0, n_sect := 0, n_desc := 0,
    n_value := 0, size := 2, addr := none, is_export := false,
    library_name := none, segment_name := none, section_name := none }

/-- An undefined, size-3 symbol. -/
def undefSymB : MachOSymbol :=
  { undefSymA with symtab_offset := 16, size := 3 }

/-- Witness for C1: resolving the two undefined symbols on a 64-bit image
gives the first the base address with a non-`None` result, and the second's
slot starts at base + 2 and stays within the external region. -/
theorem resolve_symbols_external_addresses_witness :
    ({ undefSymA with addr := some 0xff00000000000000 } : MachOSymbol).addr ≠ none
      ∧ (0xff00000000000000 + 2 ≤ 0xff0000000000000 * 16 + 2
          ∧ 0xff0000000000000 * 16 + 2 + 3
            ≤ (resolve_symbols true [] [] [] [undefSymA, undefSymB]).2.1) :=
  ⟨(resolve_symbols_external_addresses true [] [] [] [undefSymA, undefSymB]).2.1
      { undefSymA with addr := some 0xff00000000000000 } (by decide) (by decide),
   by
    have h := (resolve_symbols_external_addresses true [] [] []
        [undefSymA, undefSymB]).2.2.2 (0xff0000000000000 * 16 + 2, 3) (by decide)
    exact ⟨by norm_num, h.2⟩⟩

/-! ## C8: exports trie decoder (`_parse_exports`) -/

/-- Modelled from the spec: `read_uleb` lives in `binding.py`, which is not
under src/; the spec defines it as unsigned-LEB128 decode returning
`(value, consumed)` — each byte contributes its low 7 bits, the high bit is
the continuation bit. Decoding an empty tail yields `(0, 0)`. -/
def ulebCore : List Nat → Nat × Nat
  | [] => (0, 0)
  | b :: rest =>
    if b < 0x80 then (b, 1)
    else
      let p := ulebCore rest
      ((b &&& 0x7f) + p.1 * 0x80, p.2 + 1)

/-- `read_uleb(blob, offset)` — see `ulebCore`. -/
def read_uleb (blob : List Nat) (pos : Nat) : Nat × Nat :=
  ulebCore (blob.drop pos)

/-- Reading a NUL-terminated string byte by byte, as `_parse_exports` does
with `blob_f.read(1)` loops: returns the bytes before the NUL and the number
of bytes consumed (including the NUL). At end-of-blob the Python loop never
terminates (`read(1)` keeps returning `""`), modelled by `none`. -/
def cstrSplit : List Nat → Option (List Nat × Nat)
  | [] => none
  | b :: rest =>
    if b = 0 then some ([], 1)
    else (cstrSplit rest).map (fun p => (b :: p.1, p.2 + 1))

/-- The `info_len` read of `_parse_exports`: one byte at `index`; if it is
greater than 127 it is the first byte of a ULEB128, so seek back and decode
the full ULEB. Returns `(info_len, position after it)`; reading past the
blob end is `none`. -/
def readInfoLen (blob : List Nat) (index : Nat) : Option (Nat × Nat) :=
  match blob.get? index with
  | none => none
  | some b0 =>
    if b0 > 127 then
      let t := read_uleb blob index
      some (t.1, index + t.2)
    else some (b0, index + 1)

/-- An entry of `exports_by_name`: the tuples stored by `_parse_exports` for
the three export kinds. -/
inductive ExportRecord
  | reexport (flags libOrdinal : Nat) (libSymName : List Nat)
  | stubAndResolver (flags stubOffset resolverOffset : Nat)
  | regular (flags symbolOffset : Nat)
deriving DecidableEq

/-- The child loop at the end of a trie node: `child_count` times, read a
NUL-terminated edge string and a ULEB node offset, and push
`(next_node, prefix + edge)` onto the work list (consing onto `acc` so that
the head of the returned list is the top of the Python stack). -/
def childLoop (blob : List Nat) (symStr : List Nat) :
    Nat → Nat → List (Nat × List Nat) → Option (List (Nat × List Nat))
  | 0, _, acc => some acc
  | n + 1, pos, acc =>
    match cstrSplit (blob.drop pos) with
    | none => none
    | some (edge, consumed) =>
      let t := read_uleb blob (pos + consumed)
      childLoop blob symStr n (pos + consumed + t.2)
        ((t.1, symStr ++ edge) :: acc)

/-- One iteration of the `_parse_exports` work-list loop, for the node at
`index` with accumulated name `symStr`: decode `info_len`; when positive,
decode the ULEB `flags` and, by flag bits 0x08 (REEXPORT) and 0x10
(STUB_AND_RESOLVER), store the corresponding record under `symStr` in
`exports_by_name` (a cons-list where the most recent binding wins, like the
dict assignment); a REGULAR terminal stores
`(flags, symbol_offset + segments[1].vaddr)` where `seg1vaddr` is
`self.segments[1].vaddr`. Then read `child_count` and collect the children
to push. -/
def processExportNode (blob : List Nat) (seg1vaddr : Nat)
    (exports : List (List Nat × ExportRecord)) (index : Nat)
    (symStr : List Nat) :
    Option (List (List Nat × ExportRecord) × List (Nat × List Nat)) :=
  match readInfoLen blob index with
  | none => none
  | some (infoLen, pos) =>
    match
      (if infoLen > 0 then
        let tf := read_uleb blob pos
        let flags := tf.1
        let p1 := pos + tf.2
        if flags &&& 0x08 ≠ 0 then
          let tOrd := read_uleb blob p1
          let p2 := p1 + tOrd.2
          match cstrSplit (blob.drop p2) with
          | none => none
          | some (nm, consumed) =>
            some ((symStr, ExportRecord.reexport flags tOrd.1 nm) :: exports,
              p2 + consumed)
        else if flags &&& 0x10 ≠ 0 then
          let tStub := read_uleb blob p1
          let p2 := p1 + tStub.2
          let tRes := read_uleb blob p2
          some ((symStr,
              ExportRecord.stubAndResolver flags tStub.1 tRes.1) :: exports,
            p2 + tRes.2)
        else
          let tOff := read_uleb blob p1
          some ((symStr,
              ExportRecord.regular flags (tOff.1 + seg1vaddr)) :: exports,
            p1 + tOff.2)
      else some (exports, pos) : Option _)
    with
    | none => none
    | some (exports2, pos2) =>
      match blob.get? pos2 with
      | none => none
      | some childCount =>
        match childLoop blob symStr childCount (pos2 + 1) [] with
        | none => none
        | some children => some (exports2, children)

/-- The full `_parse_exports` work-list loop, seeded with `[(0, "")]`; a pop
from the empty list (the caught `IndexError`) is the normal exit. The Python
loop can run forever on a cyclic trie, hence the fuel; `none` means the
source would not terminate (or would die reading past the blob). -/
def parseExports (blob : List Nat) (seg1vaddr : Nat) :
    Nat → List (Nat × List Nat) → List (List Nat × ExportRecord) →
    Option (List (List Nat × ExportRecord))
  | _, [], exports => some exports
  | 0, _ :: _, _ => none
  | fuel + 1, (index, symStr) :: rest, exports =>
    match processExportNode blob seg1vaddr exports index symStr with
    | none => none
    | some (exports2, children) =>
      parseExports blob seg1vaddr fuel (children ++ rest) exports2

/-- C8: for a terminal trie node whose decoded flags have neither the
REEXPORT bit 0x08 nor the STUB_AND_RESOLVER bit 0x10 set, a successful
`processExportNode` stores under the node's accumulated name exactly the
pair `(flags, symbol_offset + seg1vaddr)`, where `symbol_offset` is the
ULEB128 decoded right after the flags and `seg1vaddr` is the vaddr of
`segments[1]`, the second segment in file order. -/
theorem export_regular_node_offset (blob : List Nat) (seg1vaddr : Nat)
    (exports : List (List Nat × ExportRecord)) (index : Nat)
    (symStr : List Nat) (infoLen pos : Nat)
    (exports2 : List (List Nat × ExportRecord))
    (children : List (Nat × List Nat))
    (hinfo : readInfoLen blob index = some (infoLen, pos))
    (hpos : 0 < infoLen)
    (hflags : (read_uleb blob pos).1 &&& 0x08 = 0
      ∧ (read_uleb blob pos).1 &&& 0x10 = 0)
    (hrun : processExportNode blob seg1vaddr exports index symStr
      = some (exports2, children)) :
    exports2.lookup symStr
      = some (ExportRecord.regular (read_uleb blob pos).1
          ((read_uleb blob (pos + (read_uleb blob pos).2)).1 + seg1vaddr)) := by
  rw [processExportNode, hinfo] at hrun
  dsimp only at hrun
  rw [if_pos hpos] at hrun
  rw [if_neg (by simpa using hflags.1)] at hrun
  rw [if_neg (by simpa using hflags.2)] at hrun
  dsimp only at hrun
  rcases hget : blob.get? (pos + (read_uleb blob pos).2
      + (read_uleb blob (pos + (read_uleb blob pos).2)).2) with _ | childCount
  · rw [hget] at hrun
    dsimp only at hrun
    cases hrun
  · rw [hget] at hrun
    dsimp only at hrun
    rcases hchild : childLoop blob symStr childCount
        (pos + (read_uleb blob pos).2
          + (read_uleb blob (pos + (read_uleb blob pos).2)).2 + 1) []
      with _ | cs
    · rw [hchild] at hrun
      dsimp only at hrun
      cases hrun
    · rw [hchild] at hrun
      dsimp only at hrun
      have hex : exports2
          = (symStr, ExportRecord.regular (read_uleb blob pos).1
              ((read_uleb blob (pos + (read_uleb blob pos).2)).1 + seg1vaddr))
            :: exports := by
        cases hrun
        rfl
      rw [hex]
      simp [List.lookup]

/-- Witness for C8: the four-byte node `[3, 0, 16, 0]` (info_len 3, flags 0,
symbol_offset 16, no children) with `segments[1].vaddr = 0x1000` stores
`("", (0, 0x1010))`. -/
theorem export_regular_node_offset_witness :
    ([([], ExportRecord.regular 0 0x1010)]
        : List (List Nat × ExportRecord)).lookup ([] : List Nat)
      = some (ExportRecord.regular 0 0x1010) :=
  export_regular_node_offset [3, 0, 16, 0] 0x1000 [] 0 [] 3 1
    [([], ExportRecord.regular 0 0x1010)] [] (by decide) (by decide)
    ⟨by decide, by decide⟩ (by decide)

end CleMachO
